import Mathlib

/-!
Verification of the chain-integrity core of the `hodl-my-notes` logbook
application: the Merkle utilities (`src/utils/merkle.ts`, built on
merkletreejs with `sortPairs: true`), the local chain store
(`src/utils/chain.ts`, class `ChainManager`), the reconciliation engine
(`src/app/logbookReconstructor.ts`) and the bundle verifier
(`LogbookVerifier.performVerification` in `src/app/logbookCreator.ts`).

The SHA-256 primitive (`ethers.sha256`) is an external library call; every
definition is parameterised by a byte-level hash function
`H : Bytes → Bytes` standing for it, so all theorems hold for the real
hash as a special case.  Buffers are modelled as lists of naturals
(`Bytes`), `Buffer.compare` as lexicographic order, and the `"0x" + hex`
string form produced by `ethers.sha256` / `Buffer.toString("hex")` by an
explicit hex codec.
-/

set_option maxRecDepth 8000

namespace HodlMyNotes

/-- A Node.js `Buffer`: a sequence of bytes (each `< 256` for real data). -/
abbrev Bytes := List Nat

/-- All elements of the list are genuine bytes. -/
def ValidBytes (bs : Bytes) : Prop := ∀ b ∈ bs, b < 256

/-- `Buffer.compare a b < 0`: strict lexicographic order on byte sequences,
a strict prefix comparing smaller. -/
def lexLt : Bytes → Bytes → Bool
  | [], [] => false
  | [], _ :: _ => true
  | _ :: _, [] => false
  | a :: as, b :: bs => if a < b then true else if b < a then false else lexLt as bs

/-- Standard UTF-8 encoding of one character, at the `Nat` level. -/
def utf8EncodeCharNat (c : Char) : List Nat :=
  let v := c.toNat
  if v ≤ 0x7f then [v]
  else if v ≤ 0x7ff then [(v >>> 6) &&& 0x1f ||| 0xc0, v &&& 0x3f ||| 0x80]
  else if v ≤ 0xffff then
    [(v >>> 12) &&& 0x0f ||| 0xe0, (v >>> 6) &&& 0x3f ||| 0x80, v &&& 0x3f ||| 0x80]
  else
    [(v >>> 18) &&& 0x07 ||| 0xf0, (v >>> 12) &&& 0x3f ||| 0x80,
      (v >>> 6) &&& 0x3f ||| 0x80, v &&& 0x3f ||| 0x80]

/-- UTF-8 bytes of a string (`ethers.toUtf8Bytes`). -/
def utf8Bytes (s : String) : Bytes := s.data.flatMap utf8EncodeCharNat

/-! ## Hex codec: `"0x" + buffer.toString("hex")` and `Buffer.from(hex, "hex")` -/

/-- Lowercase hex digit for a value `< 16` (as `Buffer.toString("hex")` emits). -/
def hexDigitChar (n : Nat) : Char :=
  if n < 10 then Char.ofNat (48 + n) else Char.ofNat (87 + n)

/-- The two hex characters of one byte. -/
def byteToHexChars (b : Nat) : List Char := [hexDigitChar (b / 16), hexDigitChar (b % 16)]

/-- `"0x" + bs.toString("hex")`. -/
def bytesToHex (bs : Bytes) : String := ⟨'0' :: 'x' :: bs.flatMap byteToHexChars⟩

/-- Numeric value of a hex character (0 for non-hex input). -/
def hexCharVal (c : Char) : Nat :=
  if 48 ≤ c.toNat ∧ c.toNat ≤ 57 then c.toNat - 48
  else if 97 ≤ c.toNat ∧ c.toNat ≤ 102 then c.toNat - 87
  else if 65 ≤ c.toNat ∧ c.toNat ≤ 70 then c.toNat - 55
  else 0

/-- Consecutive character pairs decoded to bytes. -/
def hexPairsToBytes : List Char → Bytes
  | c1 :: c2 :: rest => (hexCharVal c1 * 16 + hexCharVal c2) :: hexPairsToBytes rest
  | _ => []

/-- `Buffer.from(s.slice(2), "hex")`: drop the `0x` marker, decode pairs. -/
def hexToBytes (s : String) : Bytes := hexPairsToBytes (s.data.drop 2)

theorem hexCharVal_hexDigitChar {n : Nat} (h : n < 16) : hexCharVal (hexDigitChar n) = n := by
  interval_cases n <;> decide

theorem hexPairsToBytes_flatMap {bs : Bytes} (h : ValidBytes bs) :
    hexPairsToBytes (bs.flatMap byteToHexChars) = bs := by
  induction bs with
  | nil => rfl
  | cons b rest ih =>
    have hb : b < 256 := h b (List.mem_cons_self b rest)
    have hrest : ValidBytes rest := fun x hx => h x (List.mem_cons_of_mem b hx)
    have h1 : b / 16 < 16 := by omega
    have h2 : b % 16 < 16 := Nat.mod_lt _ (by omega)
    have hstep : (b :: rest).flatMap byteToHexChars
        = hexDigitChar (b / 16) :: hexDigitChar (b % 16) :: rest.flatMap byteToHexChars := by
      simp [byteToHexChars]
    rw [hstep, hexPairsToBytes, hexCharVal_hexDigitChar h1, hexCharVal_hexDigitChar h2, ih hrest]
    congr 1
    omega

/-- Decoding the hex rendering of a genuine byte sequence restores it. -/
theorem hexToBytes_bytesToHex {bs : Bytes} (h : ValidBytes bs) :
    hexToBytes (bytesToHex bs) = bs := by
  simpa [hexToBytes, bytesToHex] using hexPairsToBytes_flatMap h

/-! ## MerkleEngine (`src/utils/merkle.ts` on merkletreejs, `sortPairs: true`)

merkletreejs with `{ sortPairs: true }` and default options builds layers
bottom-up: adjacent nodes are sorted (`Buffer.compare`), concatenated and
hashed; an unpaired last node of an odd layer is carried up unchanged
(`duplicateOdd` is off).  The tree object is fully determined by its
(pre-hashed) leaf layer, so a tree is modelled as that layer. -/

/-- `hashLeaf` of `src/utils/merkle.ts`: SHA-256 of the UTF-8 bytes of a
string leaf, as raw bytes. -/
def hashLeafB (H : Bytes → Bytes) (s : String) : Bytes := H (utf8Bytes s)

/-- Sorted-pair combination: sort the two nodes with `Buffer.compare`,
concatenate, hash.  Used identically when building layers and when
verifying a proof. -/
def combineH (H : Bytes → Bytes) (a b : Bytes) : Bytes :=
  if lexLt a b then H (a ++ b) else H (b ++ a)

/-- One round of merkletreejs `createHashes`: combine adjacent pairs,
carry an unpaired last node up unchanged. -/
def nextLevel (H : Bytes → Bytes) : List Bytes → List Bytes
  | [] => []
  | [a] => [a]
  | a :: b :: rest => combineH H a b :: nextLevel H rest

theorem nextLevel_length (H : Bytes → Bytes) :
    ∀ L : List Bytes, (nextLevel H L).length = (L.length + 1) / 2
  | [] => rfl
  | [_] => by simp [nextLevel]
  | _ :: _ :: rest => by
    simp only [nextLevel, List.length_cons, nextLevel_length H rest]
    omega

/-- merkletreejs `getRoot`: the single node of the topmost layer (the empty
buffer for an empty tree). -/
def rootOf (H : Bytes → Bytes) (level : List Bytes) : Bytes :=
  if level.length ≤ 1 then level.headD []
  else rootOf H (nextLevel H level)
termination_by level.length
decreasing_by simp only [nextLevel_length]; omega

/-- Sibling index in a layer: `index - 1` for a right node, `index + 1` for
a left node. -/
def pairIndexOf (idx : Nat) : Nat := if idx % 2 = 1 then idx - 1 else idx + 1

/-- merkletreejs `getProof` from a known leaf index: at each layer take the
sibling when it exists, then move to `index / 2` in the next layer. -/
def getProofAux (H : Bytes → Bytes) (level : List Bytes) (idx : Nat) : List Bytes :=
  if level.length ≤ 1 then []
  else
    (if h : pairIndexOf idx < level.length then [level[pairIndexOf idx]] else [])
      ++ getProofAux H (nextLevel H level) (idx / 2)
termination_by level.length
decreasing_by simp only [nextLevel_length]; omega

/-- merkletreejs leaf lookup in `getProof`: the scan keeps overwriting the
index on every `Buffer.compare` match, so it yields the LAST matching
index. -/
def lastIndexOf (x : Bytes) : List Bytes → Option Nat
  | [] => none
  | a :: rest =>
    match lastIndexOf x rest with
    | some j => some (j + 1)
    | none => if a = x then some 0 else none

/-- `createMerkleTree`: hash every leaf string; the tree is its hashed leaf
layer. -/
def createMerkleTree (H : Bytes → Bytes) (leaves : List String) : List Bytes :=
  leaves.map (hashLeafB H)

/-- `getMerkleRoot`: `"0x" + tree.getRoot().toString("hex")`. -/
def getMerkleRoot (H : Bytes → Bytes) (tree : List Bytes) : String :=
  bytesToHex (rootOf H tree)

/-- `getMerkleProof`: hash the leaf, look it up, render each proof node as a
`0x`-prefixed hex string (empty proof when the leaf is absent). -/
def getMerkleProof (H : Bytes → Bytes) (tree : List Bytes) (leaf : String) : List String :=
  match lastIndexOf (hashLeafB H leaf) tree with
  | none => []
  | some i => (getProofAux H tree i).map bytesToHex

/-- `verifyMerkleProof` via `MerkleTree.verify` with `sortPairs: true`:
fold the sorted-pair combination of the running hash with each decoded
proof node, starting from the hashed leaf, and compare with the decoded
root. -/
def verifyMerkleProof (H : Bytes → Bytes) (proof : List String) (leaf : String)
    (root : String) : Bool :=
  let hashedLeaf := hashLeafB H leaf
  let proofBuffers := proof.map hexToBytes
  let rootBuffer := hexToBytes root
  proofBuffers.foldl (combineH H) hashedLeaf == rootBuffer

/-! ### Structural lemmas about the Merkle embedding -/

theorem lexLt_asymm_eq : ∀ {a b : Bytes}, lexLt a b = false → lexLt b a = false → a = b
  | [], [], _, _ => rfl
  | [], _ :: _, h1, _ => by simp [lexLt] at h1
  | _ :: _, [], _, h2 => by simp [lexLt] at h2
  | a :: as, b :: bs, h1, h2 => by
    simp only [lexLt] at h1 h2
    by_cases hab : a < b
    · simp [hab] at h1
    · by_cases hba : b < a
      · simp [hba] at h2
      · have hab' : a = b := by omega
        subst hab'
        simp only [if_neg hab, if_neg hba] at h1 h2
        rw [lexLt_asymm_eq h1 h2]

theorem lexLt_not_both : ∀ {a b : Bytes}, lexLt a b = true → lexLt b a = true → False
  | [], [], h1, _ => by simp [lexLt] at h1
  | [], _ :: _, _, h2 => by simp [lexLt] at h2
  | _ :: _, [], h1, _ => by simp [lexLt] at h1
  | a :: as, b :: bs, h1, h2 => by
    simp only [lexLt] at h1 h2
    by_cases hab : a < b
    · rw [if_neg (by omega : ¬ b < a), if_pos hab] at h2
      exact absurd h2 (by simp)
    · by_cases hba : b < a
      · rw [if_neg hab, if_pos hba] at h1
        exact absurd h1 (by simp)
      · rw [if_neg hab, if_neg hba] at h1
        rw [if_neg hba, if_neg hab] at h2
        exact lexLt_not_both h1 h2

theorem combineH_comm (H : Bytes → Bytes) (a b : Bytes) :
    combineH H a b = combineH H b a := by
  unfold combineH
  cases h1 : lexLt a b with
  | true =>
    cases h2 : lexLt b a with
    | true => exact (lexLt_not_both h1 h2).elim
    | false => simp
  | false =>
    cases h2 : lexLt b a with
    | true => simp
    | false => simp [lexLt_asymm_eq h1 h2]

/-- The nodes of one `createHashes` round, position by position: node `j`
combines nodes `2j` and `2j+1`, or carries node `2j` up when it is the
unpaired last node. -/
theorem nextLevel_getElem? (H : Bytes → Bytes) :
    ∀ (L : List Bytes) (j : Nat),
      (nextLevel H L)[j]? =
        match L[2 * j]?, L[2 * j + 1]? with
        | some a, some b => some (combineH H a b)
        | some a, none => some a
        | none, _ => none
  | [], j => by simp [nextLevel]
  | [a], j => by
    cases j with
    | zero => simp [nextLevel]
    | succ j =>
      have hnone : ([a] : List Bytes)[2 * (j + 1)]? = none := by
        rw [List.getElem?_eq_none]
        simp
        omega
      simp [nextLevel, hnone]
  | a :: b :: rest, j => by
    cases j with
    | zero => simp [nextLevel]
    | succ j =>
      have huse := nextLevel_getElem? H rest j
      have h1 : 2 * (j + 1) = 2 * j + 1 + 1 := by omega
      have h2 : 2 * (j + 1) + 1 = 2 * j + 1 + 1 + 1 := by omega
      simp only [nextLevel, List.getElem?_cons_succ, h1, h2]
      exact huse

/-- Correctness of the layer-by-layer proof walk: folding the sorted-pair
combination over the proof collected from a node recomputes the root. -/
theorem foldl_getProofAux (H : Bytes → Bytes) (L : List Bytes) (i : Nat) (x : Bytes)
    (hx : L[i]? = some x) :
    (getProofAux H L i).foldl (combineH H) x = rootOf H L := by
  have hi : i < L.length := by
    by_contra hcon
    rw [List.getElem?_eq_none (by omega)] at hx
    simp at hx
  by_cases hlen : L.length ≤ 1
  · rw [getProofAux, if_pos hlen, rootOf, if_pos hlen]
    have hi0 : i = 0 := by omega
    subst hi0
    cases L with
    | nil => simp at hx
    | cons a t =>
      simp only [List.getElem?_cons_zero, Option.some.injEq] at hx
      simp [hx]
  · rw [getProofAux, if_neg hlen, rootOf, if_neg hlen, List.foldl_append]
    have hnl := nextLevel_getElem? H L (i / 2)
    by_cases hpar : i % 2 = 1
    · have hpi : pairIndexOf i = i - 1 := by simp [pairIndexOf, hpar]
      have hlt : i - 1 < L.length := by omega
      have h2 : 2 * (i / 2) + 1 = i := by omega
      have h1 : 2 * (i / 2) = i - 1 := by omega
      have hsib : L[i - 1]? = some L[i - 1] := List.getElem?_eq_getElem hlt
      rw [h2, h1, hx, hsib] at hnl
      simp only [] at hnl
      rw [hpi, dif_pos hlt]
      simp only [List.foldl_cons, List.foldl_nil]
      rw [combineH_comm]
      exact foldl_getProofAux H (nextLevel H L) (i / 2) _ hnl
    · have hpi : pairIndexOf i = i + 1 := by simp [pairIndexOf, hpar]
      have h1 : 2 * (i / 2) = i := by omega
      rw [h1, hx] at hnl
      by_cases hlt : i + 1 < L.length
      · have hsib : L[i + 1]? = some L[i + 1] := List.getElem?_eq_getElem hlt
        rw [hsib] at hnl
        simp only [] at hnl
        rw [hpi, dif_pos hlt]
        simp only [List.foldl_cons, List.foldl_nil]
        exact foldl_getProofAux H (nextLevel H L) (i / 2) _ hnl
      · have hsib : L[i + 1]? = none := List.getElem?_eq_none (by omega)
        rw [hsib] at hnl
        simp only [] at hnl
        rw [hpi, dif_neg hlt]
        simp only [List.foldl_nil]
        exact foldl_getProofAux H (nextLevel H L) (i / 2) _ hnl
termination_by L.length
decreasing_by all_goals simp only [nextLevel_length]; omega

theorem lastIndexOf_getElem? {x : Bytes} :
    ∀ {l : List Bytes} {i : Nat}, lastIndexOf x l = some i → l[i]? = some x := by
  intro l
  induction l with
  | nil => intro i h; simp [lastIndexOf] at h
  | cons a rest ih =>
    intro i h
    simp only [lastIndexOf] at h
    cases hrec : lastIndexOf x rest with
    | some j =>
      rw [hrec] at h
      cases h
      simpa using ih hrec
    | none =>
      rw [hrec] at h
      by_cases hax : a = x
      · simp only [if_pos hax] at h
        cases h
        simp [hax]
      · simp [if_neg hax] at h

theorem lastIndexOf_isSome_of_mem {x : Bytes} :
    ∀ {l : List Bytes}, x ∈ l → (lastIndexOf x l).isSome = true := by
  intro l
  induction l with
  | nil => intro h; simp at h
  | cons a rest ih =>
    intro h
    simp only [lastIndexOf]
    cases hrec : lastIndexOf x rest with
    | some j => simp
    | none =>
      rcases List.mem_cons.mp h with h | h
      · simp [h.symm]
      · have := ih h
        rw [hrec] at this
        simp at this

theorem validBytes_nextLevel (H : Bytes → Bytes) (HOk : ∀ bs, ValidBytes (H bs)) :
    ∀ (L : List Bytes), (∀ x ∈ L, ValidBytes x) → ∀ y ∈ nextLevel H L, ValidBytes y
  | [], _, y, hy => by simp [nextLevel] at hy
  | [a], hL, y, hy => by
    simp only [nextLevel, List.mem_singleton] at hy
    subst hy
    exact hL y (by simp)
  | a :: b :: rest, hL, y, hy => by
    simp only [nextLevel, List.mem_cons] at hy
    rcases hy with h | h
    · subst h
      unfold combineH
      split <;> exact HOk _
    · exact validBytes_nextLevel H HOk rest (fun x hx => hL x (by simp [hx])) y h

theorem validBytes_rootOf (H : Bytes → Bytes) (HOk : ∀ bs, ValidBytes (H bs))
    (L : List Bytes) (hL : ∀ x ∈ L, ValidBytes x) : ValidBytes (rootOf H L) := by
  rw [rootOf]
  by_cases hlen : L.length ≤ 1
  · rw [if_pos hlen]
    cases L with
    | nil => intro b hb; simp at hb
    | cons a t => simpa using hL a (by simp)
  · rw [if_neg hlen]
    exact validBytes_rootOf H HOk (nextLevel H L) (validBytes_nextLevel H HOk L hL)
termination_by L.length
decreasing_by simp only [nextLevel_length]; omega

theorem validBytes_getProofAux (H : Bytes → Bytes) (HOk : ∀ bs, ValidBytes (H bs))
    (L : List Bytes) (i : Nat) (hL : ∀ x ∈ L, ValidBytes x) :
    ∀ p ∈ getProofAux H L i, ValidBytes p := by
  intro p hp
  rw [getProofAux] at hp
  by_cases hlen : L.length ≤ 1
  · rw [if_pos hlen] at hp
    simp at hp
  · rw [if_neg hlen] at hp
    rcases List.mem_append.mp hp with h | h
    · split at h
      · simp only [List.mem_singleton] at h
        subst h
        exact hL _ (List.getElem_mem _)
      · simp at h
    · exact validBytes_getProofAux H HOk (nextLevel H L) (i / 2)
        (validBytes_nextLevel H HOk L hL) p h
termination_by L.length
decreasing_by simp only [nextLevel_length]; omega

/-- C1.  For every non-empty list of leaf hashes (any size, including 1 and
odd sizes) and every leaf in the list, the Merkle proof generated for the
leaf verifies against the root of the tree built from the list:
`verifyMerkleProof (getMerkleProof (createMerkleTree leaves) leaf) leaf
(getMerkleRoot (createMerkleTree leaves)) = true`.  Proved for an arbitrary
byte-valued hash function `H` standing for the external SHA-256. -/
theorem merkle_proof_roundtrip (H : Bytes → Bytes) (HOk : ∀ bs, ValidBytes (H bs))
    (leaves : List String) (leaf : String) (hmem : leaf ∈ leaves) :
    verifyMerkleProof H (getMerkleProof H (createMerkleTree H leaves) leaf) leaf
      (getMerkleRoot H (createMerkleTree H leaves)) = true := by
  have hT : hashLeafB H leaf ∈ createMerkleTree H leaves :=
    List.mem_map_of_mem (hashLeafB H) hmem
  have hTvalid : ∀ x ∈ createMerkleTree H leaves, ValidBytes x := by
    intro x hx
    rcases List.mem_map.mp hx with ⟨s, _, rfl⟩
    exact HOk _
  obtain ⟨i, hidx⟩ : ∃ i, lastIndexOf (hashLeafB H leaf) (createMerkleTree H leaves) = some i := by
    have := lastIndexOf_isSome_of_mem hT
    exact Option.isSome_iff_exists.mp this
  have hget : (createMerkleTree H leaves)[i]? = some (hashLeafB H leaf) :=
    lastIndexOf_getElem? hidx
  unfold verifyMerkleProof getMerkleRoot
  rw [show getMerkleProof H (createMerkleTree H leaves) leaf
      = (getProofAux H (createMerkleTree H leaves) i).map bytesToHex by
    unfold getMerkleProof
    rw [hidx]]
  have hproofValid := validBytes_getProofAux H HOk (createMerkleTree H leaves) i hTvalid
  have hmaps : ((getProofAux H (createMerkleTree H leaves) i).map bytesToHex).map hexToBytes
      = getProofAux H (createMerkleTree H leaves) i := by
    rw [List.map_map]
    calc (getProofAux H (createMerkleTree H leaves) i).map (hexToBytes ∘ bytesToHex)
        = (getProofAux H (createMerkleTree H leaves) i).map id := by
          apply List.map_congr_left
          intro p hp
          exact hexToBytes_bytesToHex (hproofValid p hp)
      _ = _ := List.map_id _
  simp only [hmaps]
  rw [hexToBytes_bytesToHex (validBytes_rootOf H HOk _ hTvalid)]
  rw [foldl_getProofAux H (createMerkleTree H leaves) i (hashLeafB H leaf) hget]
  simp

/-- Concrete, cheaply computable stand-in for the external SHA-256 primitive
(`ethers.sha256`), used to instantiate the hash-generic theorems on
concrete inputs. -/
def mockHash (bs : Bytes) : Bytes :=
  [bs.length % 256, (bs.foldl (fun a b => a + b) 7) % 256]

theorem mockHash_valid : ∀ bs, ValidBytes (mockHash bs) := by
  intro bs b hb
  simp only [mockHash, List.mem_cons, List.mem_singleton, List.not_mem_nil, or_false] at hb
  rcases hb with h | h <;> (subst h; exact Nat.mod_lt _ (by omega))

/-- Witness for C1: the proof for the middle leaf of a concrete 3-leaf
(odd-sized) tree verifies. -/
theorem merkle_proof_roundtrip_witness :
    ("0xbb" ∈ ["0xaa", "0xbb", "0xcc"]) ∧
    verifyMerkleProof mockHash
      (getMerkleProof mockHash (createMerkleTree mockHash ["0xaa", "0xbb", "0xcc"]) "0xbb")
      "0xbb"
      (getMerkleRoot mockHash (createMerkleTree mockHash ["0xaa", "0xbb", "0xcc"])) = true :=
  ⟨by decide, merkle_proof_roundtrip mockHash mockHash_valid _ _ (by decide)⟩

/-! ## ChainStore (`src/utils/chain.ts`, class `ChainManager`)

File-system persistence is modelled by carrying the persisted document
alongside the in-memory one; `fs.writeFileSync` of `chain.json` becomes the
update of the `persisted` field.  Entry content files
(`<logbookDir>/<name>/entry.txt`) are modelled as a partial map from entry
name to content. -/

/-- `ChainEntry` of `src/types` (`BaseEntry` plus `txHash`, `merkleRoot`). -/
structure ChainEntry where
  name : String
  entryHash : String
  previousHash : String
  txHash : String
  timestamp : Int
  blockNumber : Int
  merkleRoot : String
deriving DecidableEq, Repr

instance : Inhabited ChainEntry :=
  ⟨{ name := "", entryHash := "", previousHash := "", txHash := "", timestamp := 0,
     blockNumber := 0, merkleRoot := "" }⟩

/-- `ChainData` of `src/types`. -/
structure ChainData where
  logbookName : String
  entries : List ChainEntry
deriving DecidableEq, Repr

/-- In-memory document plus the persisted `chain.json` document. -/
structure ManagerState where
  data : ChainData
  persisted : ChainData
deriving DecidableEq, Repr

/-- `hashContent` of `src/utils/hash.ts`: `ethers.sha256` of the UTF-8
bytes, as a `0x`-prefixed hex string. -/
def hashContent (H : Bytes → Bytes) (content : String) : String :=
  bytesToHex (H (utf8Bytes content))

/-- `GENESIS_HASH = hashContent("genesis")` of `src/utils/chain.ts`. -/
def genesisHash (H : Bytes → Bytes) : String := hashContent H "genesis"

/-- `[0-9a-fA-F]`. -/
def isHexDigitChar (c : Char) : Bool :=
  (48 ≤ c.toNat && c.toNat ≤ 57) || (97 ≤ c.toNat && c.toNat ≤ 102)
    || (65 ≤ c.toNat && c.toNat ≤ 70)

/-- The regex `addEntry` applies to `entryHash`: `^0x[0-9a-fA-F]+$` (one or
more hex characters, no length bound).  The preceding `!entryHash` falsiness
test only excludes the empty string, which this pattern rejects anyway. -/
def matchesEntryHashPattern (s : String) : Bool :=
  match s.data with
  | '0' :: 'x' :: rest => !rest.isEmpty && rest.all isHexDigitChar
  | _ => false

/-- The regex `addEntry` applies to `txHash`: `^0x[0-9a-fA-F]{64}$`. -/
def matchesTxHashPattern (s : String) : Bool :=
  match s.data with
  | '0' :: 'x' :: rest => rest.length == 64 && rest.all isHexDigitChar
  | _ => false

/-- The spec's canonical 32-byte digest format `^0x[0-9a-fA-F]{64}$`
(stated from the spec's words, §6, to compare against what the code
enforces). -/
def specCanonicalDigestPattern (s : String) : Bool :=
  match s.data with
  | '0' :: 'x' :: rest => rest.length == 64 && rest.all isHexDigitChar
  | _ => false

/-- All four argument validations of `addEntry` pass. -/
def addEntryArgsOk (entryHash txHash : String) (timestamp blockNumber : Int) : Bool :=
  matchesEntryHashPattern entryHash && matchesTxHashPattern txHash
    && decide (0 ≤ timestamp) && decide (0 ≤ blockNumber)

/-- `ChainManager.addEntry`: validate the four arguments (throwing leaves
both the in-memory and persisted state untouched), compute `previousHash`
from the last entry or `GENESIS_HASH`, recompute the Merkle root over all
entry hashes including the new one, push the entry and persist. -/
def addEntry (H : Bytes → Bytes) (st : ManagerState) (name entryHash txHash : String)
    (timestamp blockNumber : Int) : Except String ChainEntry × ManagerState :=
  if !matchesEntryHashPattern entryHash then
    (.error "Invalid entry hash format: must start with 0x and contain only hex characters", st)
  else if !matchesTxHashPattern txHash then
    (.error "Invalid transaction hash format: must be 0x followed by 64 hex characters", st)
  else if timestamp < 0 then
    (.error "Timestamp must be a positive number", st)
  else if blockNumber < 0 then
    (.error "Block number must be a positive number", st)
  else
    let previousHash :=
      match st.data.entries.getLast? with
      | some last => last.entryHash
      | none => genesisHash H
    let allHashes := st.data.entries.map (fun e => e.entryHash) ++ [entryHash]
    let merkleRoot := getMerkleRoot H (createMerkleTree H allHashes)
    let entry : ChainEntry :=
      { name := name, entryHash := entryHash, previousHash := previousHash, txHash := txHash,
        timestamp := timestamp, blockNumber := blockNumber, merkleRoot := merkleRoot }
    let newData : ChainData :=
      { logbookName := st.data.logbookName, entries := st.data.entries ++ [entry] }
    (.ok entry, { data := newData, persisted := newData })

/-- The `i ≥ 1` linkage loop of `validateChain`, with its running index. -/
def chainLinkErrors : Nat → List ChainEntry → List String
  | _, [] => []
  | _, [_] => []
  | i, prev :: curr :: rest =>
    (if curr.previousHash ≠ prev.entryHash then
      ["Chain broken at index " ++ toString i ++ ": previousHash mismatch (expected "
        ++ prev.entryHash ++ ", got " ++ curr.previousHash ++ ")"]
     else [])
      ++ chainLinkErrors (i + 1) (curr :: rest)

/-- The per-entry content check of `validateChain`: read
`<logbookDir>/<name>/entry.txt` (the file system is the map `fsContent`
from entry name to content), recompute the hash, report a mismatch.  There
is no placeholder exemption in this function. -/
def contentErrorsFor (H : Bytes → Bytes) (fsContent : String → Option String)
    (e : ChainEntry) : List String :=
  match fsContent e.name with
  | none => ["Entry file not found: " ++ e.name]
  | some content =>
    if hashContent H content ≠ e.entryHash then
      ["Content hash mismatch for entry " ++ e.name ++ ": expected " ++ e.entryHash
        ++ ", computed " ++ hashContent H content]
    else []

/-- `ChainManager.validateChain`: empty chains are trivially valid;
otherwise collect the genesis check, the linkage loop and the content-hash
loop, and report `valid = (errors = [])`. -/
def validateChain (H : Bytes → Bytes) (fsContent : String → Option String)
    (data : ChainData) : Bool × List String :=
  if data.entries.isEmpty then (true, [])
  else
    let genesisErrs :=
      if (data.entries.headD default).previousHash ≠ genesisHash H then
        ["First entry must have genesis previousHash (" ++ genesisHash H ++ ")"]
      else []
    let linkErrs := chainLinkErrors 1 data.entries
    let contentErrs := data.entries.flatMap (contentErrorsFor H fsContent)
    let errors := genesisErrs ++ linkErrs ++ contentErrs
    (errors.isEmpty, errors)

/-! ### Concrete fixtures for witnesses and counterexamples -/

/-- A well-formed 64-hex-character transaction hash. -/
def sampleTxHash : String :=
  "0xaaaaaaaaaaaaaaaaaaaaaaaaaaaaaaaaaaaaaaaaaaaaaaaaaaaaaaaaaaaaaaaa"

/-- A freshly opened (genesis) manager for logbook `"lb"`. -/
def mgr0 : ManagerState :=
  { data := { logbookName := "lb", entries := [] },
    persisted := { logbookName := "lb", entries := [] } }

/-- `Except.isOk` as a plain function on the result type used here. -/
def resultIsOk : Except String ChainEntry → Bool
  | .ok _ => true
  | .error _ => false

/-! ### C4: which format `addEntry` enforces on `entryHash` -/

/-- C4 counterexample.  `addEntry` accepts the entry hash `"0xab"`, which is
far shorter than the canonical 32-byte digest format `^0x[0-9a-fA-F]{64}$`
the claim says is enforced: the code's regex for `entryHash` is
`^0x[0-9a-fA-F]+$` (only `txHash` gets the 64-character rule). -/
theorem addEntry_accepts_short_entryHash :
    specCanonicalDigestPattern "0xab" = false ∧
    resultIsOk (addEntry mockHash mgr0 "entry" "0xab" sampleTxHash 0 0).1 = true := by
  constructor
  · decide
  · decide

/-- C4 (amended).  `addEntry` rejects `entryHash` with the format error
exactly when it fails `^0x[0-9a-fA-F]+$` — any positive number of hex
characters is accepted, with no 64-character requirement. -/
theorem addEntry_entryHash_validation (H : Bytes → Bytes) (st : ManagerState)
    (name eh tx : String) (ts bn : Int) :
    (addEntry H st name eh tx ts bn).1 =
      .error "Invalid entry hash format: must start with 0x and contain only hex characters"
      ↔ matchesEntryHashPattern eh = false := by
  by_cases h1 : matchesEntryHashPattern eh
  · simp only [addEntry, h1, Bool.not_true, Bool.false_eq_true, if_false]
    constructor
    · intro hcontra
      by_cases h2 : matchesTxHashPattern tx
      · simp only [h2, Bool.not_true, Bool.false_eq_true, if_false] at hcontra
        by_cases h3 : ts < 0
        · rw [if_pos h3] at hcontra
          exact absurd (Except.error.inj hcontra) (by decide)
        · rw [if_neg h3] at hcontra
          by_cases h4 : bn < 0
          · rw [if_pos h4] at hcontra
            exact absurd (Except.error.inj hcontra) (by decide)
          · rw [if_neg h4] at hcontra
            simp at hcontra
      · simp only [h2, Bool.not_false, if_true] at hcontra
        exact absurd (Except.error.inj hcontra) (by decide)
    · intro hcontra
      exact absurd hcontra (by decide)
  · have h1' : matchesEntryHashPattern eh = false := by simpa using h1
    simp [addEntry, h1']

/-- C4 amended-theorem witness: a 10-hex-character entry hash passes the
code's check while a plainly malformed one is rejected with the format
error. -/
theorem addEntry_entryHash_validation_witness :
    ((addEntry mockHash mgr0 "e" "nothex" sampleTxHash 1 2).1 =
      .error "Invalid entry hash format: must start with 0x and contain only hex characters")
    ∧ matchesEntryHashPattern "nothex" = false :=
  ⟨(addEntry_entryHash_validation mockHash mgr0 "e" "nothex" sampleTxHash 1 2).mpr (by decide),
    by decide⟩

/-! ### C5: previousHash of a successful append -/

/-- C5.  Every successful `addEntry` gives the new entry a `previousHash`
equal to the last existing entry's `entryHash`, or to
`GENESIS_HASH = hashContent("genesis")` when the chain is empty. -/
theorem addEntry_previousHash (H : Bytes → Bytes) (st : ManagerState)
    (name eh tx : String) (ts bn : Int) (h : addEntryArgsOk eh tx ts bn = true) :
    (addEntry H st name eh tx ts bn).1.map (fun e => e.previousHash)
      = .ok (match st.data.entries.getLast? with
             | some last => last.entryHash
             | none => genesisHash H) := by
  simp only [addEntryArgsOk, Bool.and_eq_true, decide_eq_true_eq] at h
  obtain ⟨⟨⟨h1, h2⟩, h3⟩, h4⟩ := h
  simp [addEntry, Except.map, h1, h2, not_lt.mpr h3, not_lt.mpr h4]

/-- C5 witness: on a fresh chain the appended entry's `previousHash` is the
genesis hash. -/
theorem addEntry_previousHash_witness :
    addEntryArgsOk "0xaa" sampleTxHash 5 3 = true ∧
    (addEntry mockHash mgr0 "e" "0xaa" sampleTxHash 5 3).1.map (fun e => e.previousHash)
      = .ok (genesisHash mockHash) :=
  ⟨by decide, addEntry_previousHash mockHash mgr0 "e" "0xaa" sampleTxHash 5 3 (by decide)⟩

/-! ### C8: failed validation leaves the store untouched -/

/-- C8.  When any of the four `addEntry` validations fails, the call
returns an error and both the in-memory chain and the persisted document
are exactly as before: nothing is appended, nothing is saved. -/
theorem addEntry_invalid_state_unchanged (H : Bytes → Bytes) (st : ManagerState)
    (name eh tx : String) (ts bn : Int) (h : addEntryArgsOk eh tx ts bn = false) :
    (addEntry H st name eh tx ts bn).2 = st ∧
    ∃ msg, (addEntry H st name eh tx ts bn).1 = .error msg := by
  by_cases h1 : matchesEntryHashPattern eh
  · by_cases h2 : matchesTxHashPattern tx
    · by_cases h3 : ts < 0
      · exact ⟨by simp [addEntry, h1, h2, h3],
          "Timestamp must be a positive number", by simp [addEntry, h1, h2, h3]⟩
      · by_cases h4 : bn < 0
        · exact ⟨by simp [addEntry, h1, h2, h3, h4],
            "Block number must be a positive number", by simp [addEntry, h1, h2, h3, h4]⟩
        · exfalso
          simp only [addEntryArgsOk, h1, h2, Bool.true_and, Bool.and_eq_false_iff,
            decide_eq_false_iff_not, not_le] at h
          rcases h with h | h
          · exact h3 h
          · exact h4 h
    · exact ⟨by simp [addEntry, h1, h2],
        "Invalid transaction hash format: must be 0x followed by 64 hex characters",
        by simp [addEntry, h1, h2]⟩
  · exact ⟨by simp [addEntry, h1],
      "Invalid entry hash format: must start with 0x and contain only hex characters",
      by simp [addEntry, h1]⟩

/-- C8 witness: a negative timestamp aborts and the state is unchanged. -/
theorem addEntry_invalid_state_unchanged_witness :
    addEntryArgsOk "0xaa" sampleTxHash (-1) 3 = false ∧
    ((addEntry mockHash mgr0 "e" "0xaa" sampleTxHash (-1) 3).2 = mgr0 ∧
      ∃ msg, (addEntry mockHash mgr0 "e" "0xaa" sampleTxHash (-1) 3).1 = .error msg) :=
  ⟨by decide,
    addEntry_invalid_state_unchanged mockHash mgr0 "e" "0xaa" sampleTxHash (-1) 3 (by decide)⟩

/-! ### C10: the store imposes nothing on entry names -/

/-- C10.  `addEntry` never inspects `name`: with otherwise-valid arguments
the append succeeds for EVERY name — empty, outside `[A-Za-z0-9_-]+`, or a
duplicate of an existing entry's name — and stores it verbatim. -/
theorem addEntry_name_unconstrained (H : Bytes → Bytes) (st : ManagerState)
    (name eh tx : String) (ts bn : Int) (h : addEntryArgsOk eh tx ts bn = true) :
    (addEntry H st name eh tx ts bn).1.map (fun e => e.name) = .ok name ∧
    (addEntry H st name eh tx ts bn).2.data.entries.map (fun e => e.name)
      = st.data.entries.map (fun e => e.name) ++ [name] := by
  simp only [addEntryArgsOk, Bool.and_eq_true, decide_eq_true_eq] at h
  obtain ⟨⟨⟨h1, h2⟩, h3⟩, h4⟩ := h
  constructor <;> simp [addEntry, Except.map, h1, h2, not_lt.mpr h3, not_lt.mpr h4]

/-- An entry whose name is the empty string. -/
def dupEntry : ChainEntry :=
  { name := "", entryHash := "0xaa", previousHash := genesisHash mockHash,
    txHash := sampleTxHash, timestamp := 1, blockNumber := 1, merkleRoot := "" }

/-- A chain already holding an entry whose name is the empty string. -/
def mgrDup : ManagerState :=
  { data := { logbookName := "lb", entries := [dupEntry] },
    persisted := { logbookName := "lb", entries := [dupEntry] } }

/-- C10 witness: appending a second entry with the empty-string name — a
duplicate of the existing entry's name and outside `[A-Za-z0-9_-]+` —
succeeds and stores it verbatim. -/
theorem addEntry_name_unconstrained_witness :
    addEntryArgsOk "0xbb" sampleTxHash 2 2 = true ∧
    ((addEntry mockHash mgrDup "" "0xbb" sampleTxHash 2 2).1.map (fun e => e.name) = .ok "" ∧
      (addEntry mockHash mgrDup "" "0xbb" sampleTxHash 2 2).2.data.entries.map (fun e => e.name)
        = mgrDup.data.entries.map (fun e => e.name) ++ [""]) :=
  ⟨by decide, addEntry_name_unconstrained mockHash mgrDup "" "0xbb" sampleTxHash 2 2 (by decide)⟩

/-! ### C2: `validateChain` and Placeholder entries -/

/-- `pat` occurs as a contiguous subsequence of `s` (JS `String.includes`). -/
def containsSeq (pat : List Char) : List Char → Bool
  | [] => pat.isPrefixOf []
  | c :: rest => pat.isPrefixOf (c :: rest) || containsSeq pat rest

/-- The Placeholder content sentinel written by the reconstructor and
recognised by the bundle verifier. -/
def placeholderMarker : String := "PLACEHOLDER - Original content not available"

/-- The verifier's placeholder test:
`content.includes("PLACEHOLDER - Original content not available")`. -/
def isPlaceholderContent (content : String) : Bool :=
  containsSeq placeholderMarker.data content.data

/-- A placeholder content body as the reconstructor writes it (sentinel
first line, then restoration instructions). -/
def samplePlaceholderContent : String :=
  placeholderMarker ++ "\n\nTo restore:\n1. Locate backup\n2. Replace this file"

/-- A chain entry anchored to real content `"original"` whose local file was
replaced by placeholder content (`txHash` is the reconstruction sentinel). -/
def phEntry : ChainEntry :=
  { name := "e1", entryHash := hashContent mockHash "original",
    previousHash := genesisHash mockHash, txHash := "reconstructed",
    timestamp := 1, blockNumber := 1, merkleRoot := "" }

/-- A one-entry chain with correct genesis linkage whose only content
deviation is the placeholder file. -/
def phChain : ChainData := { logbookName := "lb", entries := [phEntry] }

/-- The local file system for `phChain`: entry `e1` holds placeholder
content. -/
def phFs : String → Option String :=
  fun n => if n = "e1" then some samplePlaceholderContent else none

/-- C2 counterexample.  A chain whose only content deviation is a
Placeholder entry (correct genesis and linkage) is reported
`valid = false` by `validateChain`, with a plain content-hash-mismatch
finding: the function has no placeholder exemption and no distinguishable
"skipped" outcome. -/
theorem validateChain_fails_placeholder_chain :
    isPlaceholderContent samplePlaceholderContent = true ∧
    (validateChain mockHash phFs phChain).1 = false ∧
    (validateChain mockHash phFs phChain).2
      = ["Content hash mismatch for entry e1: expected " ++ hashContent mockHash "original"
          ++ ", computed " ++ hashContent mockHash samplePlaceholderContent] := by
  refine ⟨by decide, by decide, by decide⟩

/-- C2 (amended).  `validateChain` applies the content-hash check to every
entry, Placeholder content included: whenever an entry's stored content
hashes to something other than its `entryHash`, the report contains the
content-hash-mismatch finding for that entry and `valid = false`.  The only
placeholder-aware skipping in the system lives in the bundle verifier
(`performVerification`), not here. -/
theorem validateChain_checks_every_entry (H : Bytes → Bytes)
    (fsContent : String → Option String) (data : ChainData) (e : ChainEntry) (c : String)
    (hmem : e ∈ data.entries) (hc : fsContent e.name = some c)
    (hne : hashContent H c ≠ e.entryHash) :
    (validateChain H fsContent data).1 = false ∧
    ("Content hash mismatch for entry " ++ e.name ++ ": expected " ++ e.entryHash
      ++ ", computed " ++ hashContent H c) ∈ (validateChain H fsContent data).2 := by
  have hne' : data.entries ≠ [] := List.ne_nil_of_mem hmem
  have hempty : data.entries.isEmpty = false := by
    simpa [List.isEmpty_iff] using hne'
  have hmsg : ("Content hash mismatch for entry " ++ e.name ++ ": expected " ++ e.entryHash
      ++ ", computed " ++ hashContent H c)
      ∈ data.entries.flatMap (contentErrorsFor H fsContent) := by
    refine List.mem_flatMap.mpr ⟨e, hmem, ?_⟩
    simp [contentErrorsFor, hc, hne]
  rw [validateChain, hempty]
  simp only [Bool.false_eq_true, if_false]
  constructor
  · have : ("Content hash mismatch for entry " ++ e.name ++ ": expected " ++ e.entryHash
        ++ ", computed " ++ hashContent H c)
        ∈ ((if (data.entries.headD default).previousHash ≠ genesisHash H then
            ["First entry must have genesis previousHash (" ++ genesisHash H ++ ")"]
          else []) ++ chainLinkErrors 1 data.entries
          ++ data.entries.flatMap (contentErrorsFor H fsContent)) := by
      simp only [List.mem_append]
      exact Or.inr hmsg
    simpa [List.isEmpty_iff] using List.ne_nil_of_mem this
  · simp only [List.mem_append]
    exact Or.inr hmsg

/-- C2 amended-theorem witness: the concrete placeholder chain yields
`valid = false` with the mismatch finding present. -/
theorem validateChain_checks_every_entry_witness :
    (phEntry ∈ phChain.entries ∧ phFs phEntry.name = some samplePlaceholderContent ∧
      hashContent mockHash samplePlaceholderContent ≠ phEntry.entryHash) ∧
    ((validateChain mockHash phFs phChain).1 = false ∧
      ("Content hash mismatch for entry " ++ phEntry.name ++ ": expected " ++ phEntry.entryHash
        ++ ", computed " ++ hashContent mockHash samplePlaceholderContent)
        ∈ (validateChain mockHash phFs phChain).2) :=
  ⟨⟨by decide, by decide, by decide⟩,
    validateChain_checks_every_entry mockHash phFs phChain phEntry samplePlaceholderContent
      (by decide) (by decide) (by decide)⟩

/-! ## ReconciliationEngine (`src/app/logbookReconstructor.ts`)

`syncFromContract` and the file system are inputs: `checkLocalIntegrity`
receives the `SyncResult`, whether the logbook directory exists
(`ChainManager.logbookExists`) and the locally loaded chain entries. -/

/-- `BaseEntry` of `src/types`: one on-chain (ledger) entry. -/
structure BaseEntry where
  name : String
  entryHash : String
  previousHash : String
  timestamp : Int
  blockNumber : Int
deriving DecidableEq, Repr

instance : Inhabited BaseEntry :=
  ⟨{ name := "", entryHash := "", previousHash := "", timestamp := 0, blockNumber := 0 }⟩

/-- `SyncResult` of `src/types`. -/
structure SyncResult where
  success : Bool
  entries : List BaseEntry
  errors : List String
deriving DecidableEq, Repr

/-- The result record of `checkLocalIntegrity`. -/
structure IntegrityCheck where
  needsReconstruction : Bool
  contractEntries : Option (List BaseEntry)
deriving DecidableEq, Repr

/-- `LogbookReconstructor.checkLocalIntegrity`: a failed or empty sync
means no reconstruction; otherwise a missing directory, an empty local
chain, any local entry with the `"reconstructed"` sentinel `txHash`, a
count mismatch, or a final-entry-hash mismatch requires reconstruction. -/
def checkLocalIntegrity (sync : SyncResult) (logbookOnDisk : Bool)
    (localChain : List ChainEntry) : IntegrityCheck :=
  if !sync.success || sync.entries.isEmpty then
    { needsReconstruction := false, contractEntries := none }
  else if !logbookOnDisk then
    { needsReconstruction := true, contractEntries := some sync.entries }
  else if localChain.isEmpty then
    { needsReconstruction := true, contractEntries := some sync.entries }
  else if localChain.any (fun e => e.txHash == "reconstructed") then
    { needsReconstruction := true, contractEntries := some sync.entries }
  else
    { needsReconstruction :=
        (localChain.length != sync.entries.length)
          || ((localChain.getLastD default).entryHash
                != (sync.entries.getLastD default).entryHash),
      contractEntries := some sync.entries }

/-- One rebuilt entry of `LogbookReconstructor.reconstruct` at `index`:
ledger fields are copied (previousHash trusted, not recomputed), `txHash`
is the `"reconstructed"` sentinel, and the Merkle root is recomputed over
the entry hashes of ledger entries `0 .. index`. -/
def rebuiltEntry (H : Bytes → Bytes) (ledgerEntries : List BaseEntry) (index : Nat)
    (entry : BaseEntry) : ChainEntry :=
  { name := entry.name, entryHash := entry.entryHash, previousHash := entry.previousHash,
    txHash := "reconstructed", timestamp := entry.timestamp, blockNumber := entry.blockNumber,
    merkleRoot := getMerkleRoot H (createMerkleTree H
      ((ledgerEntries.take (index + 1)).map (fun e => e.entryHash))) }

/-- The `entries.map((entry, index) => ...)` loop with its running index. -/
def rebuildFrom (H : Bytes → Bytes) (ledgerEntries : List BaseEntry) :
    Nat → List BaseEntry → List ChainEntry
  | _, [] => []
  | index, entry :: rest =>
    rebuiltEntry H ledgerEntries index entry :: rebuildFrom H ledgerEntries (index + 1) rest

/-- The full rebuilt entry list of `reconstruct`. -/
def reconstructEntries (H : Bytes → Bytes) (ledgerEntries : List BaseEntry) : List ChainEntry :=
  rebuildFrom H ledgerEntries 0 ledgerEntries

/-- `ChainManager.reconstruct`: wholesale replacement of the chain's
entries, persisted. -/
def managerReconstruct (st : ManagerState) (entries : List ChainEntry) : ManagerState :=
  { data := { logbookName := st.data.logbookName, entries := entries },
    persisted := { logbookName := st.data.logbookName, entries := entries } }

theorem rebuildFrom_getElem? (H : Bytes → Bytes) (all : List BaseEntry) :
    ∀ (start : Nat) (rest : List BaseEntry) (j : Nat),
      (rebuildFrom H all start rest)[j]? = rest[j]?.map (rebuiltEntry H all (start + j))
  | _, [], j => by simp [rebuildFrom]
  | start, e :: rest, 0 => by simp [rebuildFrom]
  | start, e :: rest, j + 1 => by
    simp only [rebuildFrom, List.getElem?_cons_succ]
    rw [rebuildFrom_getElem? H all (start + 1) rest j]
    have harith : start + 1 + j = start + (j + 1) := by omega
    rw [harith]

/-! ## BundleVerifier (`LogbookVerifier.performVerification`,
`src/app/logbookCreator.ts`)

The imperative `allValid` flag is only ever set to `false`, so it equals
the conjunction of the three checks' outcomes; `hasPlaceholders` is only
ever set to `true`, so it equals the placeholder-content scan.  Step 4
(code-version consistency in `proof.txt` files) prints warnings without
touching either flag, so it does not influence the verdict and has no
model.  The blockchain `try` block is the input `query`: `none` when
`getAllEntries`/`validateChain` throw (ledger unreachable), otherwise the
fetched entries with the contract-side validation verdict. -/

/-- One entry of `ExportData.entries` in `src/types`. -/
structure ExportEntry where
  index : Int
  name : String
  content : String
  entryHash : String
  previousHash : String
  txHash : String
  timestamp : Int
  blockNumber : Int
  merkleRoot : String
deriving DecidableEq, Repr

/-- Step 1: every non-placeholder entry's content must hash to its
`entryHash` (placeholder entries are skipped here). -/
def contentCheckValid (H : Bytes → Bytes) (entries : List ExportEntry) : Bool :=
  entries.all (fun e =>
    isPlaceholderContent e.content || (hashContent H e.content == e.entryHash))

/-- The `hasPlaceholders` flag: some entry has placeholder content. -/
def hasPlaceholdersIn (entries : List ExportEntry) : Bool :=
  entries.any (fun e => isPlaceholderContent e.content)

/-- Step 2 linkage walk, carrying the immediately preceding entry: entry 0
is checked against the genesis hash; a placeholder entry, or an entry whose
predecessor is a placeholder, is skipped. -/
def linkageAll (H : Bytes → Bytes) (prev : Option ExportEntry) : List ExportEntry → Bool
  | [] => true
  | e :: rest =>
    (if isPlaceholderContent e.content then true
     else
       match prev with
       | none => e.previousHash == genesisHash H
       | some p =>
         if isPlaceholderContent p.content then true else e.previousHash == p.entryHash)
      && linkageAll H (some e) rest

/-- Step 2 over the whole bundle. -/
def linkageCheckValid (H : Bytes → Bytes) (entries : List ExportEntry) : Bool :=
  linkageAll H none entries

/-- Step 3: entry count, per-index `entryHash`/`previousHash`/`name`
comparison against the fetched on-chain entries, and the contract's own
`validateChain` verdict; a thrown blockchain call (`query = none`) clears
`allValid`. -/
def ledgerCheckValid (entries : List ExportEntry)
    (query : Option (List BaseEntry × Bool)) : Bool :=
  match query with
  | none => false
  | some (onChain, contractValid) =>
    (if onChain.length != entries.length then false
     else (entries.zip onChain).all (fun lc =>
        lc.1.entryHash == lc.2.entryHash && lc.1.previousHash == lc.2.previousHash
          && lc.1.name == lc.2.name))
      && contractValid

/-- The three final verdict messages of `performVerification`. -/
inductive Verdict where
  | passed
  | passedWithPlaceholders
  | failed
deriving DecidableEq, Repr

/-- The final verdict: placeholder detection is tested FIRST, then
`allValid`. -/
def performVerification (H : Bytes → Bytes) (entries : List ExportEntry)
    (query : Option (List BaseEntry × Bool)) : Verdict :=
  let allValid := contentCheckValid H entries && linkageCheckValid H entries
    && ledgerCheckValid entries query
  if hasPlaceholdersIn entries then .passedWithPlaceholders
  else if allValid then .passed
  else .failed

/-! ### C6 and C9: `checkLocalIntegrity` -/

/-- C6.  With a successful ledger query: an empty ledger never requires
reconstruction, and a non-empty ledger requires reconstruction exactly when
the local store is missing, or empty, or contains a Placeholder entry
(`txHash = "reconstructed"`), or differs from the ledger in entry count or
in the final entry's hash. -/
theorem checkLocalIntegrity_spec (sync : SyncResult) (onDisk : Bool)
    (localChain : List ChainEntry) (hs : sync.success = true) :
    (sync.entries = [] →
      (checkLocalIntegrity sync onDisk localChain).needsReconstruction = false)
    ∧ (sync.entries ≠ [] →
        ((checkLocalIntegrity sync onDisk localChain).needsReconstruction = true ↔
          (onDisk = false ∨ localChain = []
            ∨ (∃ e ∈ localChain, e.txHash = "reconstructed")
            ∨ localChain.length ≠ sync.entries.length
            ∨ (localChain.getLastD default).entryHash
                ≠ (sync.entries.getLastD default).entryHash))) := by
  constructor
  · intro he
    simp [checkLocalIntegrity, hs, he]
  · intro hne
    have hne' : sync.entries.isEmpty = false := by
      simpa [List.isEmpty_iff] using hne
    cases onDisk with
    | false => simp [checkLocalIntegrity, hs, hne']
    | true =>
      by_cases hlc : localChain = []
      · subst hlc
        simp [checkLocalIntegrity, hs, hne']
      · have hlc' : localChain.isEmpty = false := by
          simpa [List.isEmpty_iff] using hlc
        by_cases hph : localChain.any (fun e => e.txHash == "reconstructed") = true
        · have hph2 : ∃ e ∈ localChain, e.txHash = "reconstructed" := by
            simpa [List.any_eq_true, beq_iff_eq] using hph
          have hres : (checkLocalIntegrity sync true localChain).needsReconstruction = true := by
            simp [checkLocalIntegrity, hs, hne', hlc', hph]
          rw [hres]
          simp [hph2]
        · have hph' : localChain.any (fun e => e.txHash == "reconstructed") = false := by
            simpa using hph
          have hph2 : ∀ e ∈ localChain, ¬ e.txHash = "reconstructed" := by
            simpa [List.any_eq_false, beq_iff_eq] using hph'
          have hres : (checkLocalIntegrity sync true localChain).needsReconstruction
              = ((localChain.length != sync.entries.length)
                  || ((localChain.getLastD default).entryHash
                        != (sync.entries.getLastD default).entryHash)) := by
            simp [checkLocalIntegrity, hs, hne', hlc', hph']
          rw [hres]
          simp only [Bool.or_eq_true, bne_iff_ne]
          constructor
          · intro h
            exact Or.inr (Or.inr (Or.inr (h.elim Or.inl Or.inr)))
          · intro h
            rcases h with h | h | h | h | h
            · exact absurd h (by decide)
            · exact absurd h hlc
            · obtain ⟨e, hmem, he⟩ := h
              exact absurd he (hph2 e hmem)
            · exact Or.inl h
            · exact Or.inr h

/-- A concrete on-chain entry. -/
def baseB : BaseEntry :=
  { name := "b", entryHash := "0xaa", previousHash := genesisHash mockHash,
    timestamp := 1, blockNumber := 1 }

/-- A one-entry ledger sync result. -/
def syncOne : SyncResult := { success := true, entries := [baseB], errors := [] }

/-- C6 witness: a non-empty ledger with no local directory requires
reconstruction. -/
theorem checkLocalIntegrity_spec_witness :
    syncOne.success = true ∧ syncOne.entries ≠ [] ∧
    (checkLocalIntegrity syncOne false []).needsReconstruction = true :=
  ⟨rfl, by decide,
    ((checkLocalIntegrity_spec syncOne false [] rfl).2 (by decide)).mpr (Or.inl rfl)⟩

/-- C9.  When the ledger query itself fails (`success = false`),
`checkLocalIntegrity` returns `needsReconstruction = false` with no entries
and no error surfaced — the very same result as a successful query of a
ledger with zero entries, whatever the local state. -/
theorem checkLocalIntegrity_sync_failure (sync : SyncResult) (onDisk : Bool)
    (localChain : List ChainEntry) (hs : sync.success = false) :
    checkLocalIntegrity sync onDisk localChain
      = { needsReconstruction := false, contractEntries := none }
    ∧ ∀ (onDisk2 : Bool) (localChain2 : List ChainEntry) (errs : List String),
        checkLocalIntegrity sync onDisk localChain
          = checkLocalIntegrity { success := true, entries := [], errors := errs }
              onDisk2 localChain2 := by
  have h1 : checkLocalIntegrity sync onDisk localChain
      = { needsReconstruction := false, contractEntries := none } := by
    simp [checkLocalIntegrity, hs]
  refine ⟨h1, fun onDisk2 localChain2 errs => ?_⟩
  rw [h1]
  simp [checkLocalIntegrity]

/-- A failed sync result carrying an error the caller never sees. -/
def syncFail : SyncResult :=
  { success := false, entries := [], errors := ["Sync failed: connection refused"] }

/-- C9 witness: a failed sync over a non-trivial local chain is
indistinguishable from an empty successful sync. -/
theorem checkLocalIntegrity_sync_failure_witness :
    syncFail.success = false ∧
    (checkLocalIntegrity syncFail true [dupEntry]
        = { needsReconstruction := false, contractEntries := none }
      ∧ checkLocalIntegrity syncFail true [dupEntry]
          = checkLocalIntegrity { success := true, entries := [], errors := [] } false []) :=
  ⟨rfl, (checkLocalIntegrity_sync_failure syncFail true [dupEntry] rfl).1,
    (checkLocalIntegrity_sync_failure syncFail true [dupEntry] rfl).2 false [] []⟩

/-! ### C7: what `reconstruct` builds -/

/-- C7.  The rebuilt entry at index `i` takes its `previousHash` verbatim
from the ledger (not recomputed), gets the `"reconstructed"` sentinel as
`txHash`, and gets as `merkleRoot` the Merkle root over the entry hashes of
ledger entries `0 .. i`; the rebuilt sequence is a pure function of the
ledger snapshot, so two reconstructions from the same snapshot replace the
chain with identical entry lists. -/
theorem reconstruct_entries_spec (H : Bytes → Bytes) (ledgerEntries : List BaseEntry)
    (i : Nat) (hi : i < ledgerEntries.length) :
    ((reconstructEntries H ledgerEntries)[i]?.map (fun e => e.previousHash)
        = ledgerEntries[i]?.map (fun e => e.previousHash))
    ∧ ((reconstructEntries H ledgerEntries)[i]?.map (fun e => e.txHash)
        = some "reconstructed")
    ∧ ((reconstructEntries H ledgerEntries)[i]?.map (fun e => e.merkleRoot)
        = some (getMerkleRoot H (createMerkleTree H
            ((ledgerEntries.take (i + 1)).map (fun e => e.entryHash)))))
    ∧ (∀ st st' : ManagerState,
        (managerReconstruct st (reconstructEntries H ledgerEntries)).data.entries
          = (managerReconstruct st' (reconstructEntries H ledgerEntries)).data.entries) := by
  have hbase : (reconstructEntries H ledgerEntries)[i]?
      = some (rebuiltEntry H ledgerEntries i (ledgerEntries.get ⟨i, hi⟩)) := by
    rw [reconstructEntries, rebuildFrom_getElem?, List.getElem?_eq_getElem hi]
    simp
  refine ⟨?_, ?_, ?_, ?_⟩
  · simp [hbase, rebuiltEntry, List.getElem?_eq_getElem hi]
  · simp [hbase, rebuiltEntry]
  · simp [hbase, rebuiltEntry]
  · intro st st'
    rfl

/-- A two-entry ledger snapshot. -/
def ledger2 : List BaseEntry :=
  [{ name := "A", entryHash := "0xaa", previousHash := genesisHash mockHash,
      timestamp := 1, blockNumber := 1 },
   { name := "B", entryHash := "0xbb", previousHash := "0xaa",
      timestamp := 2, blockNumber := 2 }]

/-- C7 witness: index 1 of the rebuild from a concrete 2-entry ledger. -/
theorem reconstruct_entries_spec_witness :
    (1 < ledger2.length) ∧
    ((reconstructEntries mockHash ledger2)[1]?.map (fun e => e.txHash) = some "reconstructed"
      ∧ (reconstructEntries mockHash ledger2)[1]?.map (fun e => e.previousHash)
          = ledger2[1]?.map (fun e => e.previousHash)) :=
  ⟨by decide,
    (reconstruct_entries_spec mockHash ledger2 1 (by decide)).2.1,
    (reconstruct_entries_spec mockHash ledger2 1 (by decide)).1⟩

/-! ### C3: the overall bundle verdict -/

/-- A non-placeholder export entry whose content was tampered with (its
hash no longer matches `entryHash`). -/
def ceTampered : ExportEntry :=
  { index := 0, name := "a", content := "tampered", entryHash := hashContent mockHash "real",
    previousHash := genesisHash mockHash, txHash := sampleTxHash, timestamp := 1,
    blockNumber := 1, merkleRoot := "" }

/-- A placeholder export entry. -/
def cePlaceholder : ExportEntry :=
  { index := 1, name := "p", content := samplePlaceholderContent, entryHash := "0xbb",
    previousHash := hashContent mockHash "real", txHash := "reconstructed", timestamp := 2,
    blockNumber := 2, merkleRoot := "" }

/-- A fully consistent non-placeholder export entry. -/
def ceGood : ExportEntry :=
  { index := 0, name := "g", content := "good", entryHash := hashContent mockHash "good",
    previousHash := genesisHash mockHash, txHash := sampleTxHash, timestamp := 1,
    blockNumber := 1, merkleRoot := "" }

/-- C3 counterexample.  (i) A bundle holding a failing non-Placeholder
entry AND a Placeholder entry is reported with the placeholder verdict, not
`FAILED`: placeholder detection takes precedence over failure, contrary to
the claimed ordering.  (ii) A clean bundle whose Ledger is unreachable is
reported `FAILED`: there is no distinct verification-incomplete outcome. -/
theorem performVerification_counterexample :
    contentCheckValid mockHash [ceTampered, cePlaceholder] = false ∧
    performVerification mockHash [ceTampered, cePlaceholder] (some ([], true))
      = Verdict.passedWithPlaceholders ∧
    performVerification mockHash [ceGood] none = Verdict.failed := by
  refine ⟨by decide, by decide, by decide⟩

/-- The on-chain counterpart of `ceGood`: same name, entry hash and
previous hash, so the ledger cross-check passes. -/
def baseGood : BaseEntry :=
  { name := "g", entryHash := hashContent mockHash "good",
    previousHash := genesisHash mockHash, timestamp := 1, blockNumber := 1 }

/-- C3 (amended).  The verdict precedence actually implemented: any
Placeholder entry yields `PASSED_WITH_PLACEHOLDERS`, regardless of failed
checks; otherwise the verdict is `PASSED` exactly when all three checks
(content hashes, local linkage, ledger cross-check) pass and `FAILED`
exactly when at least one fails; an unreachable Ledger (thrown blockchain
calls, `query = none`) just fails the ledger check, so (without
placeholders) it is reported `FAILED` — there is no incomplete verdict. -/
theorem performVerification_verdict (H : Bytes → Bytes) (entries : List ExportEntry)
    (query : Option (List BaseEntry × Bool)) :
    (performVerification H entries query = Verdict.passedWithPlaceholders ↔
      ∃ e ∈ entries, isPlaceholderContent e.content = true)
    ∧ ((∀ e ∈ entries, isPlaceholderContent e.content = false) →
        ((performVerification H entries query = Verdict.passed ↔
            (contentCheckValid H entries = true ∧ linkageCheckValid H entries = true
              ∧ ledgerCheckValid entries query = true))
          ∧ (performVerification H entries query = Verdict.failed ↔
              (contentCheckValid H entries = false ∨ linkageCheckValid H entries = false
                ∨ ledgerCheckValid entries query = false))))
    ∧ (query = none → ledgerCheckValid entries query = false) := by
  refine ⟨?_, ?_, ?_⟩
  · by_cases hp : hasPlaceholdersIn entries = true
    · simp only [performVerification, hp, if_true]
      simp only [hasPlaceholdersIn, List.any_eq_true] at hp
      exact ⟨fun _ => hp, fun _ => trivial⟩
    · have hp' : hasPlaceholdersIn entries = false := by simpa using hp
      simp only [performVerification, hp', Bool.false_eq_true, if_false]
      constructor
      · intro hcontra
        by_cases hv : (contentCheckValid H entries && linkageCheckValid H entries
            && ledgerCheckValid entries query) = true
        · rw [if_pos hv] at hcontra
          exact absurd hcontra (by decide)
        · rw [if_neg hv] at hcontra
          exact absurd hcontra (by decide)
      · intro hcontra
        simp only [hasPlaceholdersIn, List.any_eq_false] at hp'
        obtain ⟨e, hmem, he⟩ := hcontra
        exact absurd he (by simp [hp' e hmem])
  · intro hall
    have hp' : hasPlaceholdersIn entries = false := by
      simp only [hasPlaceholdersIn, List.any_eq_false]
      intro e hmem
      simp [hall e hmem]
    by_cases hc : contentCheckValid H entries = true
    · by_cases hl : linkageCheckValid H entries = true
      · by_cases hg : ledgerCheckValid entries query = true
        · simp [performVerification, hp', hc, hl, hg]
        · have hg' : ledgerCheckValid entries query = false := by simpa using hg
          simp [performVerification, hp', hc, hl, hg']
      · have hl' : linkageCheckValid H entries = false := by simpa using hl
        simp [performVerification, hp', hc, hl']
    · have hc' : contentCheckValid H entries = false := by simpa using hc
      simp [performVerification, hp', hc']
  · intro hnone
    rw [hnone]
    rfl

/-- C3 amended-theorem witness: a bundle with one placeholder entry gets
the placeholder verdict; a clean bundle whose ledger matches gets
`PASSED`; a tampered bundle with a reachable ledger gets `FAILED`; and a
clean bundle with an unreachable ledger gets `FAILED`. -/
theorem performVerification_verdict_witness :
    performVerification mockHash [cePlaceholder] (some ([], true))
        = Verdict.passedWithPlaceholders
    ∧ performVerification mockHash [ceGood] (some ([baseGood], true)) = Verdict.passed
    ∧ performVerification mockHash [ceTampered] (some ([baseGood], true)) = Verdict.failed
    ∧ performVerification mockHash [ceGood] none = Verdict.failed := by
  refine ⟨?_, ?_, ?_, ?_⟩
  · exact (performVerification_verdict mockHash [cePlaceholder] (some ([], true))).1.mpr
      ⟨cePlaceholder, by decide, by decide⟩
  · exact ((performVerification_verdict mockHash [ceGood] (some ([baseGood], true))).2.1
      (by decide)).1.mpr ⟨by decide, by decide, by decide⟩
  · exact ((performVerification_verdict mockHash [ceTampered] (some ([baseGood], true))).2.1
      (by decide)).2.mpr (Or.inl (by decide))
  · exact ((performVerification_verdict mockHash [ceGood] none).2.1 (by decide)).2.mpr
      (Or.inr (Or.inr ((performVerification_verdict mockHash [ceGood] none).2.2 rfl)))

end HodlMyNotes
